import Mathlib

/-!
Verification of the shadcn-index-generator source (src/index.ts, src/config.ts,
src/cli.ts).  The generator scans a directory of TypeScript component files,
extracts their exported names from the parsed tree, classifies each as a value
or a type export, and renders a single barrel file.

The embedding below translates the source faithfully:
  - `extractExports` mirrors the recursive visitor over the parsed tree;
  - `processOneFile` mirrors the body of the per-file loop of `generateIndex`,
    including the pre-try `fileExtensions.set` and the catch branch;
  - `mapSet`/`mapGet` model the JS `Map` (insertion order kept, in-place update);
  - `generateIndex` mirrors the control flow: stat check with the ENOENT early
    return, readdir, include/exclude filtering, the loop, rendering, and the
    dry-run/write/outer-catch branches.  Filesystem outcomes (stat, readdir,
    per-file read+parse, write) are inputs in `Env`; observable effects
    (warnings, the write call, exit code) are returned in `RunResult`.
-/

namespace ShadcnIndexGen

/-! ## Definitions: the shallow embedding of the generator -/

/-- A Node.js filesystem error: the `code` field (`ENOENT`, `EACCES`, ...) and a message. -/
structure FsError where
  code : Option String
  msg : String
deriving DecidableEq, Repr

/-- One named element of an `export { A, type B }` clause, with its `isTypeOnly` flag. -/
structure NamedElem where
  name : String
  isTypeOnly : Bool
deriving DecidableEq, Repr

/-- The shapes of nodes that the visitor in `extractExports` distinguishes.
Every construct the source does not recognize (export *, export class,
non-exported statements, ...) is `otherNode`: the visitor records nothing for
it and only recurses into its children. -/
inductive ExportShape where
  | namedExportDecl (elems : List NamedElem)
  | exportedVarStatement (names : List String)
  | exportedTypeAlias (name : String)
  | exportedInterface (name : String)
  | exportedFunction (name : String)
  | defaultExportIdent (name : String)
  | defaultExportAnonFn
  | otherNode
deriving DecidableEq, Repr

mutual
/-- A node of the parsed source tree: its shape plus its child nodes
(`ts.forEachChild` recursion). -/
inductive TsNode where
  | mk (shape : ExportShape) (children : TsNodeList)
/-- A list of sibling nodes. -/
inductive TsNodeList where
  | nil
  | cons (n : TsNode) (ns : TsNodeList)
end

/-- What one node contributes to the `exports` and `typeExports` arrays when it
is visited (the if/else-if chain of the visitor in `extractExports`). -/
def shapeExports : ExportShape → List String × List String
  | .namedExportDecl elems =>
      (elems.filterMap (fun e => if e.isTypeOnly then none else some e.name),
       elems.filterMap (fun e => if e.isTypeOnly then some e.name else none))
  | .exportedVarStatement names => (names, [])
  | .exportedTypeAlias n => ([], [n])
  | .exportedInterface n => ([], [n])
  | .exportedFunction n => ([n], [])
  | .defaultExportIdent n => ([n], [])
  | .defaultExportAnonFn => (["default"], [])
  | .otherNode => ([], [])

mutual
/-- `extractExports`: depth-first visit of the tree, accumulating value-export
names and type-export names in visit order (source lines 173-241). -/
def extractExports : TsNode → List String × List String
  | .mk shape children =>
      let own := shapeExports shape
      let rest := extractExportsList children
      (own.1 ++ rest.1, own.2 ++ rest.2)
/-- The visitor folded over a list of sibling nodes. -/
def extractExportsList : TsNodeList → List String × List String
  | .nil => ([], [])
  | .cons n ns =>
      let h := extractExports n
      let t := extractExportsList ns
      (h.1 ++ t.1, h.2 ++ t.2)
end

mutual
/-- Whether some node of the tree has a shape satisfying `p`. -/
def nodeHasShape (p : ExportShape → Bool) : TsNode → Bool
  | .mk shape children => p shape || listHasShape p children
/-- Whether some node of a sibling list has a shape satisfying `p`. -/
def listHasShape (p : ExportShape → Bool) : TsNodeList → Bool
  | .nil => false
  | .cons n ns => nodeHasShape p n || listHasShape p ns
end

/-- `shouldBeType` (source lines 246-248): true when any configured pattern
matches the name.  Patterns are modelled as boolean predicates on strings. -/
def shouldBeType (name : String) (typePatterns : List (String → Bool)) : Bool :=
  typePatterns.any fun pattern => pattern name

/-- Does the string `s` end with `t`?  (JS `RegExp.test` with a `$`-anchored
literal pattern, and `String.prototype.endsWith`.) -/
def strEndsWith (s t : String) : Bool :=
  List.isSuffixOf t.data s.data

/-- Does the string `s` start with `t`?  (JS `String.prototype.startsWith`.) -/
def strStartsWith (s t : String) : Bool :=
  List.isPrefixOf t.data s.data

/-- The characters of `s` lowered (for the `i` flag of the default patterns). -/
def lowerData (s : String) : List Char :=
  s.data.map Char.toLower

/-- A case-insensitive `$`-anchored suffix pattern such as `/Props$/i`. -/
def patSuffix (suf : String) (n : String) : Bool :=
  List.isSuffixOf (lowerData suf) (lowerData n)

/-- The default pattern `/^(Use\w+)$/i`: the whole name is `use` (any case)
followed by at least one word character. -/
def patUse (n : String) : Bool :=
  List.isPrefixOf ['u', 's', 'e'] (lowerData n) &&
  decide (3 < n.data.length) &&
  (n.data.drop 3).all (fun c => c.isAlphanum || c = '_')

/-- `defaultConfig.typePatterns` (src/config.ts lines 52-62), in source order. -/
def defaultTypePatterns : List (String → Bool) :=
  [patSuffix "Api", patSuffix "Props", patSuffix "Config", patUse,
   patSuffix "Context", patSuffix "Provider", patSuffix "Store",
   patSuffix "Ref", patSuffix "Options"]

/-- `defaultConfig.include`, the pattern `/\.(tsx|ts)$/`. -/
def defaultInclude (f : String) : Bool :=
  strEndsWith f ".tsx" || strEndsWith f ".ts"

/-- `defaultConfig.exclude` (src/config.ts line 68): the patterns
`/\.d\.ts$/`, `/\.test\.tsx?$/`, `/\.stories\.tsx?$/`, `/index\.ts$/`.
Note the last pattern is the literal text `index.ts`, independent of the
configured output file name. -/
def defaultExclude : List (String → Bool) :=
  [fun f => strEndsWith f ".d.ts",
   fun f => strEndsWith f ".test.tsx" || strEndsWith f ".test.ts",
   fun f => strEndsWith f ".stories.tsx" || strEndsWith f ".stories.ts",
   fun f => strEndsWith f "index.ts"]

/-- `defaultConfig.headerComment` (src/config.ts lines 71-77). -/
def defaultHeaderComment : String :=
  "/**\n * This file was automatically generated.\n * DO NOT MODIFY IT BY HAND.\n * Run the script again to regenerate.\n */\n\n"

/-- The `Config` interface (src/config.ts), including the
`forceExplicitExtensions` and `extensionOverride` fields set by the CLI
(src/cli.ts).  Regular expressions are modelled as boolean predicates. -/
structure Config where
  componentsDir : String
  outputFile : String
  sortAlphabetically : Bool
  singleLineThreshold : Nat
  typePatterns : List (String → Bool)
  includePat : String → Bool
  exclude : List (String → Bool)
  headerComment : String
  verbose : Bool
  dryRun : Bool
  forceExplicitExtensions : Bool
  extensionOverride : String

/-- `defaultConfig` (src/config.ts lines 38-84), with the CLI defaults
`forceExplicitExtensions := false` and `extensionOverride := ""`. -/
def defaultConfig : Config :=
  { componentsDir := "src/components/ui"
    outputFile := "index.ts"
    sortAlphabetically := true
    singleLineThreshold := 3
    typePatterns := defaultTypePatterns
    includePat := defaultInclude
    exclude := defaultExclude
    headerComment := defaultHeaderComment
    verbose := false
    dryRun := false
    forceExplicitExtensions := false
    extensionOverride := "" }

/-- Split a character list at its last dot, returning the part before and the
part from the dot on; `none` when there is no dot. -/
def lastDotSplit : List Char → Option (List Char × List Char)
  | [] => none
  | c :: rest =>
      match lastDotSplit rest with
      | some (b, e) => some (c :: b, e)
      | none => if c = '.' then some ([], c :: rest) else none

/-- Node's `path.extname` on a bare file name: the suffix from the last dot,
empty when there is no dot or the only dot is the leading character. -/
def extname (file : String) : String :=
  match lastDotSplit file.data with
  | some (b, e) => if b = [] then "" else String.mk e
  | none => ""

/-- `path.basename(file, path.extname(file))`: the file name with its
`extname` suffix removed. -/
def baseNoExt (file : String) : String :=
  match lastDotSplit file.data with
  | some (b, _) => if b = [] then file else String.mk b
  | none => file

/-- Shallow model of Node's `path.join` for one separator level. -/
def pathJoin (a b : String) : String :=
  a ++ "/" ++ b

/-- Shallow model of Node's `path.resolve(cwd, p)` for a relative `p`. -/
def pathResolve (cwd p : String) : String :=
  cwd ++ "/" ++ p

/-- JS `Map.prototype.set`: replace in place when the key exists (insertion
order kept), otherwise append at the end. -/
def mapSet {α : Type} (m : List (String × α)) (k : String) (v : α) : List (String × α) :=
  match m with
  | [] => [(k, v)]
  | p :: rest => if p.1 = k then (k, v) :: rest else p :: mapSet rest k v

/-- JS `Map.prototype.get`. -/
def mapGet {α : Type} (m : List (String × α)) (k : String) : Option α :=
  match m with
  | [] => none
  | p :: rest => if p.1 = k then some p.2 else mapGet rest k

/-- The observable effects of a run: the per-file warnings and progress, the
`writeFile` call, the dry-run print, the directory-not-found report and the
outer-catch error report, in the order they happen. -/
inductive Event where
  | dirNotFound (dir : String)
  | warned (file : String)
  | processed (file : String)
  | wrote (p : String) (content : String)
  | printed (content : String)
  | errorReported (e : FsError)
deriving DecidableEq, Repr

/-- One rendered export statement of the output: the component key, the export
clause (specifier strings, `type`-prefixed for type exports) and the emitted
extension. -/
structure EmitRecord where
  componentName : String
  exports : List String
  extension : String
deriving DecidableEq, Repr

/-- The observable result of `generateIndex`: the effect trace, the final
`process.exitCode` (0 when never set), the per-component emission data and the
rendered text when the run reached rendering, and the `typesDetectedCount`
counter. -/
structure RunResult where
  events : List Event
  exitCode : Nat
  emitted : Option (List EmitRecord)
  rendered : Option String
  typesDetected : Nat
deriving DecidableEq, Repr

/-- The environment a run executes in: the working directory, the probe
results (`detectMonorepo`, `findUIComponentsInMonorepo`,
`shouldUseExplicitExtensions`), and the outcome of each filesystem operation.
`priorOutputContent` is whatever the output file held before the run; the
generator never reads it. -/
structure Env where
  cwd : String
  isMonorepo : Bool
  monorepoUIPath : Option String
  esmDetected : Bool
  statDirError : Option FsError
  readdirResult : Except FsError (List String)
  readAndParse : String → Except FsError TsNode
  writeError : Option FsError
  priorOutputContent : Option String

/-- The combined per-file export clause (source lines 376-398): value exports
that match no type pattern, then the declared type exports followed by the
reclassified value exports, each prefixed with `type `. -/
def fileExportClause (typePatterns : List (String → Bool)) (ast : TsNode) : List String :=
  let ex := extractExports ast
  (ex.1.filter fun n => !(shouldBeType n typePatterns)) ++
  ((ex.2 ++ ex.1.filter fun n => shouldBeType n typePatterns).map fun n => "type " ++ n)

/-- How many value exports of the file are reclassified as type exports
(the `typesDetectedCount++` events of source lines 382-392). -/
def fileReclassifiedCount (typePatterns : List (String → Bool)) (ast : TsNode) : Nat :=
  ((extractExports ast).1.filter fun n => shouldBeType n typePatterns).length

/-- The mutable state of the per-file loop: the `componentExports` map, the
`fileExtensions` map, the `typesDetectedCount` counter and the effect trace. -/
structure LoopState where
  componentExports : List (String × List String)
  fileExtensions : List (String × String)
  typesDetected : Nat
  events : List Event

/-- The body of the per-file loop of `generateIndex` (source lines 357-411):
record the extension before the try, then read+parse+extract; on success store
the combined clause when non-empty, on failure warn and continue. -/
def processOneFile (cfg : Config) (readAndParse : String → Except FsError TsNode)
    (componentsDir : String) (st : LoopState) (file : String) : LoopState :=
  let componentName := baseNoExt file
  let fileExtensions := mapSet st.fileExtensions componentName (extname file)
  match readAndParse (pathJoin componentsDir file) with
  | .ok ast =>
      let allExports := fileExportClause cfg.typePatterns ast
      { componentExports :=
          if allExports.length > 0 then
            mapSet st.componentExports componentName allExports
          else st.componentExports
        fileExtensions := fileExtensions
        typesDetected := st.typesDetected + fileReclassifiedCount cfg.typePatterns ast
        events := st.events ++ [.processed file] }
  | .error _ =>
      { componentExports := st.componentExports
        fileExtensions := fileExtensions
        typesDetected := st.typesDetected
        events := st.events ++ [.warned file, .processed file] }

/-- The include/exclude filter over the directory listing (source lines 324-327). -/
def scanFilter (cfg : Config) (files : List String) : List String :=
  files.filter fun file =>
    cfg.includePat file && !(cfg.exclude.any fun pattern => pattern file)

/-- The initial loop state: empty maps, zero counter, empty trace. -/
def initLoopState : LoopState :=
  { componentExports := [], fileExtensions := [], typesDetected := 0, events := [] }

/-- The whole per-file loop. -/
def runFiles (cfg : Config) (readAndParse : String → Except FsError TsNode)
    (componentsDir : String) (files : List String) : LoopState :=
  files.foldl (processOneFile cfg readAndParse componentsDir) initLoopState

/-- Prefix the override extension with a dot when missing (source lines 446-448). -/
def normalizeOverride (ov : String) : String :=
  if strStartsWith ov "." then ov else "." ++ ov

/-- The extension emitted for one component (source lines 441-461): nothing
unless explicit extensions are in use; then the override when configured, the
recorded source extension under `--force-extensions`, and otherwise the
auto-detected rewrite of `.ts`/`.tsx` to `.js`. -/
def extensionFor (cfg : Config) (useExplicitExtensions : Bool)
    (fileExtensions : List (String × String)) (componentName : String) : String :=
  if useExplicitExtensions then
    if cfg.extensionOverride ≠ "" then
      normalizeOverride cfg.extensionOverride
    else if cfg.forceExplicitExtensions then
      (mapGet fileExtensions componentName).getD ""
    else
      let originalExtension := (mapGet fileExtensions componentName).getD ""
      if originalExtension = ".tsx" ∨ originalExtension = ".ts" then ".js"
      else originalExtension
  else ""

/-- Lexicographic comparison of character lists: the default JS `sort()`
comparator on strings (code-unit order). -/
def charListLe : List Char → List Char → Bool
  | [], _ => true
  | _ :: _, [] => false
  | a :: as, b :: bs =>
      if a < b then true
      else if b < a then false
      else charListLe as bs

/-- String comparison used to model `componentNames.sort()`. -/
def strLe (a b : String) : Bool :=
  charListLe a.data b.data

/-- Insert a string into a sorted list, keeping it sorted. -/
def sortInsert (x : String) : List String → List String
  | [] => [x]
  | y :: ys => if strLe x y then x :: y :: ys else y :: sortInsert x ys

/-- `componentNames.sort()` (source line 432): sort ascending by the default
string comparator (modelled as insertion sort; keys are pairwise distinct, so
any comparison sort yields the same list). -/
def sortStrings : List String → List String
  | [] => []
  | x :: xs => sortInsert x (sortStrings xs)

/-- `Array.prototype.join(sep)`. -/
def joinSep (sep : String) : List String → String
  | [] => ""
  | [x] => x
  | x :: y :: xs => x ++ sep ++ joinSep sep (y :: xs)

/-- Concatenation of a list of strings. -/
def concatAll : List String → String
  | [] => ""
  | s :: ss => s ++ concatAll ss

/-- One rendered export statement (source lines 463-469): a single line when
the clause has at most `singleLineThreshold` entries, otherwise one specifier
per line. -/
def renderStatement (threshold : Nat) (exps : List String)
    (componentName extension : String) : String :=
  if exps.length ≤ threshold then
    "export \x7b " ++ joinSep ", " exps ++ " \x7d from \"./" ++ componentName ++ extension ++ "\";\n"
  else
    "export \x7b\n  " ++ joinSep ",\n  " exps ++ "\n\x7d from \"./" ++ componentName ++ extension ++ "\";\n"

/-- The per-component emission data of the rendering loop (source lines
429-470): component keys in map insertion order, sorted when configured, each
with its stored clause and computed extension. -/
def emittedRecords (cfg : Config) (useExplicitExtensions : Bool) (st : LoopState) :
    List EmitRecord :=
  let componentNames0 := st.componentExports.map (·.1)
  let componentNames :=
    if cfg.sortAlphabetically then sortStrings componentNames0
    else componentNames0
  componentNames.map fun componentName =>
    { componentName := componentName
      exports := (mapGet st.componentExports componentName).getD []
      extension := extensionFor cfg useExplicitExtensions st.fileExtensions componentName }

/-- The rendered output text: the header comment followed by the statements. -/
def renderedIndex (cfg : Config) (emitted : List EmitRecord) : String :=
  cfg.headerComment ++
    concatAll (emitted.map fun r =>
      renderStatement cfg.singleLineThreshold r.exports r.componentName r.extension)

/-- The scanned directory (source lines 281-292): `componentsDir` resolved
against the working directory, redirected to the monorepo UI path when the
probe found one. -/
def resolvedComponentsDir (env : Env) (cfg : Config) : String :=
  let base := pathResolve env.cwd cfg.componentsDir
  if env.isMonorepo then env.monorepoUIPath.getD base else base

/-- The output file path, `path.join(componentsDir, outputFile)` (source line 294). -/
def outIndexPath (env : Env) (cfg : Config) : String :=
  pathJoin (resolvedComponentsDir env cfg) cfg.outputFile

/-- `generateIndex` (source lines 253-523): the stat check with its graceful
ENOENT return, readdir, filtering, the per-file loop, rendering, and the
dry-run/write branch; any rethrown or readdir/write error reaches the outer
catch, which reports and sets `process.exitCode = 1`. -/
def generateIndex (env : Env) (fullConfig : Config) : RunResult :=
  let useExplicitExtensions := fullConfig.forceExplicitExtensions || env.esmDetected
  let componentsDir := resolvedComponentsDir env fullConfig
  let outputFile := outIndexPath env fullConfig
  match env.statDirError with
  | some e =>
      if e.code = some "ENOENT" then
        { events := [.dirNotFound componentsDir], exitCode := 0,
          emitted := none, rendered := none, typesDetected := 0 }
      else
        { events := [.errorReported e], exitCode := 1,
          emitted := none, rendered := none, typesDetected := 0 }
  | none =>
      match env.readdirResult with
      | .error e =>
          { events := [.errorReported e], exitCode := 1,
            emitted := none, rendered := none, typesDetected := 0 }
      | .ok files =>
          let componentFiles := scanFilter fullConfig files
          let st := runFiles fullConfig env.readAndParse componentsDir componentFiles
          let emitted := emittedRecords fullConfig useExplicitExtensions st
          let indexContent := renderedIndex fullConfig emitted
          if fullConfig.dryRun then
            { events := st.events ++ [.printed indexContent], exitCode := 0,
              emitted := some emitted, rendered := some indexContent,
              typesDetected := st.typesDetected }
          else
            match env.writeError with
            | none =>
                { events := st.events ++ [.wrote outputFile indexContent], exitCode := 0,
                  emitted := some emitted, rendered := some indexContent,
                  typesDetected := st.typesDetected }
            | some e =>
                { events := st.events ++ [.wrote outputFile indexContent, .errorReported e],
                  exitCode := 1,
                  emitted := some emitted, rendered := some indexContent,
                  typesDetected := st.typesDetected }

/-- The effect trace contributed by the per-file loop: one progress event per
file, preceded by a warning for each file whose read or parse failed. -/
def fileTrace (readAndParse : String → Except FsError TsNode) (componentsDir : String) :
    List String → List Event
  | [] => []
  | f :: fs =>
      (match readAndParse (pathJoin componentsDir f) with
       | .ok _ => [Event.processed f]
       | .error _ => [Event.warned f, Event.processed f]) ++
      fileTrace readAndParse componentsDir fs

/-- The last `some` of a list of options: models the final value left in a map
key after a sequence of conditional overwrites. -/
def lastSome? {α : Type} : List (Option α) → Option α
  | [] => none
  | o :: rest =>
      match lastSome? rest with
      | some v => some v
      | none => o

/-- What one scanned file contributes to the `componentExports` entry of base
name `b`: its combined clause when the file has that base name, parses, and
the clause is non-empty; nothing otherwise. -/
def clauseContrib (cfg : Config) (rp : String → Except FsError TsNode)
    (dir b f : String) : Option (List String) :=
  if baseNoExt f = b then
    match rp (pathJoin dir f) with
    | .ok ast =>
        if (fileExportClause cfg.typePatterns ast).length > 0 then
          some (fileExportClause cfg.typePatterns ast)
        else none
    | .error _ => none
  else none

/-- What one scanned file contributes to the `fileExtensions` entry of base
name `b`: its extension whenever it has that base name (recorded before the
try, even for files that fail to read or parse). -/
def extContrib (b f : String) : Option String :=
  if baseNoExt f = b then some (extname f) else none

/-- The number of newline characters in a string. -/
def countNL (s : String) : Nat :=
  s.data.count '\n'

/-- The node shapes produced by `export interface Foo` or `export type Foo = ...`. -/
def isTypeDeclOf (name : String) : ExportShape → Bool
  | .exportedInterface n => n == name
  | .exportedTypeAlias n => n == name
  | _ => false

/-- The node shape produced by `export const Foo = ...` (a variable statement
with the export modifier declaring `Foo`). -/
def isConstDeclOf (name : String) : ExportShape → Bool
  | .exportedVarStatement names => decide (name ∈ names)
  | _ => false

/-- A file declaring `export interface ButtonProps` and `export type CardVariant`. -/
def astInterfaceAlias : TsNode :=
  .mk .otherNode
    (.cons (.mk (.exportedInterface "ButtonProps") .nil)
      (.cons (.mk (.exportedTypeAlias "CardVariant") .nil) .nil))

/-- A file declaring `export const Button, buttonVariants` and
`export const ChartConfig` (the latter matching the default `Config$` pattern). -/
def astConstDecls : TsNode :=
  .mk .otherNode
    (.cons (.mk (.exportedVarStatement ["Button", "buttonVariants"]) .nil)
      (.cons (.mk (.exportedVarStatement ["ChartConfig"]) .nil) .nil))

/-- The loop state after a run that reached the per-file loop. -/
def mainState (env : Env) (cfg : Config) (files : List String) : LoopState :=
  runFiles cfg env.readAndParse (resolvedComponentsDir env cfg) (scanFilter cfg files)

/-- The emission data of a run that reached rendering. -/
def mainEmitted (env : Env) (cfg : Config) (files : List String) : List EmitRecord :=
  emittedRecords cfg (cfg.forceExplicitExtensions || env.esmDetected)
    (mainState env cfg files)

/-- The rendered output text of a run that reached rendering. -/
def mainRendered (env : Env) (cfg : Config) (files : List String) : String :=
  renderedIndex cfg (mainEmitted env cfg files)

/-- A file whose only statement is `export const Button = ...`. -/
def astButtonOnly : TsNode :=
  .mk .otherNode (.cons (.mk (.exportedVarStatement ["Button"]) .nil) .nil)

/-- A file whose only statement is `export const Foo = ...`. -/
def astConstFoo : TsNode :=
  .mk .otherNode (.cons (.mk (.exportedVarStatement ["Foo"]) .nil) .nil)

/-- A file whose only statement is `export const A = ...`. -/
def astConstA : TsNode :=
  .mk .otherNode (.cons (.mk (.exportedVarStatement ["A"]) .nil) .nil)

/-- A file whose only statement is `export const B = ...`. -/
def astConstB : TsNode :=
  .mk .otherNode (.cons (.mk (.exportedVarStatement ["B"]) .nil) .nil)

/-- A file with no exports at all. -/
def astEmpty : TsNode :=
  .mk .otherNode .nil

/-- A base configuration: the defaults with a short components directory and a
short header, as a caller of `generateIndex` may pass. -/
def cfgBase : Config :=
  { defaultConfig with componentsDir := "ui", headerComment := "// ui\n" }

/-- A base environment: plain project (no monorepo, not ESM), directory exists,
one component file `button.tsx` exporting `Button`, all writes succeed. -/
def envBase : Env :=
  { cwd := "", isMonorepo := false, monorepoUIPath := none, esmDetected := false,
    statDirError := none, readdirResult := .ok ["button.tsx"],
    readAndParse := fun _ => .ok astButtonOnly,
    writeError := none, priorOutputContent := none }

/-- `cfgBase` plus `extensionOverride := ".js"`, with `forceExplicitExtensions`
still false. -/
def cfgExtOverride : Config :=
  { cfgBase with extensionOverride := ".js" }

/-- `envBase`, but the project manifest says `type: module` (ESM detected). -/
def envEsm : Env :=
  { envBase with esmDetected := true }

/-- `cfgBase` with the output file renamed to `exports.ts`. -/
def cfgOutputTs : Config :=
  { cfgBase with outputFile := "exports.ts" }

/-- An environment whose scanned directory holds exactly one file named
`exports.ts` — the configured output file name — exporting `Foo`. -/
def envOutputTs : Env :=
  { envBase with
    readdirResult := .ok ["exports.ts"]
    readAndParse := fun _ => .ok astConstFoo }

/-- A directory whose every file matches a default exclude pattern. -/
def envAllExcluded : Env :=
  { envBase with
    readdirResult := .ok ["button.stories.tsx", "types.d.ts", "index.ts", "card.test.ts"]
    readAndParse := fun _ => .ok astConstFoo }

/-- `cfgBase` with `dryRun := true`. -/
def cfgDryRun : Config :=
  { cfgBase with dryRun := true }

/-- The scanned directory does not exist. -/
def envEnoent : Env :=
  { envBase with statDirError := some ⟨some "ENOENT", "missing"⟩ }

/-- The scanned directory cannot be statted for another reason. -/
def envEacces : Env :=
  { envBase with statDirError := some ⟨some "EACCES", "denied"⟩ }

/-- Listing the scanned directory fails. -/
def envReaddirFail : Env :=
  { envBase with readdirResult := .error ⟨some "EACCES", "denied"⟩ }

/-- Writing the output file fails. -/
def envWriteFail : Env :=
  { envBase with writeError := some ⟨none, "disk full"⟩ }

/-- `cfgBase` with alphabetical sorting disabled (the `--no-sort` flag). -/
def cfgNoSort : Config :=
  { cfgBase with sortAlphabetically := false }

/-- Two component files, enumerated in non-alphabetical order. -/
def envTwoFiles : Env :=
  { envBase with readdirResult := .ok ["card.tsx", "button.tsx"] }

/-- `cfgBase` with `forceExplicitExtensions := true`. -/
def cfgForceExt : Config :=
  { cfgBase with forceExplicitExtensions := true }

/-- Two files sharing the base name `button`, both parsing with exports. -/
def envDup : Env :=
  { envBase with
    readdirResult := .ok ["button.ts", "button.tsx"]
    readAndParse := fun p => if p = "/ui/button.ts" then .ok astConstA else .ok astConstB }

/-- Two files sharing the base name `button`; the later one parses but has no
exports at all. -/
def envDupEmptyLast : Env :=
  { envBase with
    readdirResult := .ok ["button.ts", "button.tsx"]
    readAndParse := fun p => if p = "/ui/button.ts" then .ok astConstA else .ok astEmpty }

/-- Three listed files; reading `button.ts` fails, the others parse. -/
def envSkip : Env :=
  { envBase with
    readdirResult := .ok ["card.ts", "button.ts", "alert.ts"]
    readAndParse := fun p =>
      if p = "/ui/button.ts" then .error ⟨none, "unreadable"⟩ else .ok astConstFoo }

/-- Two files sharing the base name `button`; the earlier one succeeds, reading
the later one fails. -/
def envLeak : Env :=
  { envBase with
    readdirResult := .ok ["button.ts", "button.tsx"]
    readAndParse := fun p =>
      if p = "/ui/button.ts" then .ok astConstA else .error ⟨none, "unreadable"⟩ }

/-- `envLeak` with the failing file removed from the listing. -/
def envLeakSuccessOnly : Env :=
  { envLeak with readdirResult := .ok ["button.ts"] }

/-! ## Theorems -/

theorem mapGet_mapSet {α : Type} (m : List (String × α)) (k j : String) (v : α) :
    mapGet (mapSet m k v) j = if j = k then some v else mapGet m j := by
  induction m with
  | nil =>
      by_cases h : j = k
      · subst h; simp [mapSet, mapGet]
      · simp [mapSet, mapGet, h, Ne.symm h]
  | cons p rest ih =>
      by_cases hpk : p.1 = k
      · by_cases hjk : j = k
        · subst hjk; simp [mapSet, mapGet, hpk]
        · have hkj : ¬ k = j := fun h => hjk h.symm
          simp [mapSet, mapGet, hpk, hjk, hkj]
      · by_cases hpj : p.1 = j
        · have hjk : ¬ j = k := fun h => hpk (hpj.trans h)
          simp [mapSet, mapGet, hpk, hpj, hjk]
        · simp [mapSet, mapGet, hpk, hpj, ih]

theorem keys_mapSet {α : Type} (m : List (String × α)) (k : String) (v : α) :
    (mapSet m k v).map Prod.fst =
      if k ∈ m.map Prod.fst then m.map Prod.fst else m.map Prod.fst ++ [k] := by
  induction m with
  | nil => simp [mapSet]
  | cons p rest ih =>
      by_cases hpk : p.1 = k
      · simp [mapSet, hpk]
      · have hkp : ¬ k = p.1 := fun h => hpk h.symm
        by_cases hk : k ∈ rest.map Prod.fst
        · simp [mapSet, hpk, ih, hk, hkp]
        · simp [mapSet, hpk, ih, hk, hkp]

theorem mapGet_eq_some_of_mem_keys {α : Type} :
    ∀ (m : List (String × α)) (j : String), j ∈ m.map Prod.fst →
      ∃ v, mapGet m j = some v := by
  intro m
  induction m with
  | nil => intro j h; simp at h
  | cons p rest ih =>
      intro j h
      by_cases hpj : p.1 = j
      · exact ⟨p.2, by simp [mapGet, hpj]⟩
      · rw [List.map_cons] at h
        rcases List.mem_cons.mp h with h1 | h1
        · exact absurd h1.symm hpj
        · rcases ih j h1 with ⟨v, hv⟩
          exact ⟨v, by simp [mapGet, hpj, hv]⟩

theorem nodup_keys_mapSet {α : Type} (m : List (String × α)) (k : String) (v : α)
    (h : (m.map Prod.fst).Nodup) : ((mapSet m k v).map Prod.fst).Nodup := by
  rw [keys_mapSet]
  by_cases hk : k ∈ m.map Prod.fst
  · simpa [hk] using h
  · simp only [hk, if_false]
    rw [List.nodup_append]
    exact ⟨h, List.nodup_singleton k, by
      intro a ha hb
      rcases List.mem_singleton.mp hb with rfl
      exact hk ha⟩

theorem charListLe_total (a : List Char) : ∀ b, charListLe a b = true ∨ charListLe b a = true := by
  induction a with
  | nil => intro b; left; rfl
  | cons x xs ih =>
      intro b
      cases b with
      | nil => right; rfl
      | cons y ys =>
          by_cases h1 : x < y
          · left; simp [charListLe, h1]
          · by_cases h2 : y < x
            · right; simp [charListLe, h2, lt_asymm h2]
            · rcases ih ys with h | h
              · left; simp [charListLe, h1, h2, h]
              · right; simp [charListLe, h1, h2, h]

theorem charListLe_trans :
    ∀ {a b c : List Char}, charListLe a b = true → charListLe b c = true →
      charListLe a c = true := by
  intro a
  induction a with
  | nil => intro b c _ _; rfl
  | cons x xs ih =>
      intro b c hab hbc
      cases b with
      | nil => simp [charListLe] at hab
      | cons y ys =>
          cases c with
          | nil => simp [charListLe] at hbc
          | cons z zs =>
              by_cases hxy : x < y
              · by_cases hyz : y < z
                · simp [charListLe, lt_trans hxy hyz]
                · by_cases hzy : z < y
                  · simp [charListLe, hyz, hzy] at hbc
                  · have : y = z := le_antisymm (not_lt.mp hzy) (not_lt.mp hyz)
                    subst this
                    simp [charListLe, hxy]
              · by_cases hyx : y < x
                · simp [charListLe, hxy, hyx] at hab
                · have hxyeq : x = y := le_antisymm (not_lt.mp hyx) (not_lt.mp hxy)
                  subst hxyeq
                  simp only [charListLe, lt_irrefl, if_false] at hab
                  by_cases hyz : x < z
                  · simp [charListLe, hyz]
                  · by_cases hzy : z < x
                    · simp [charListLe, hyz, hzy] at hbc
                    · have : x = z := le_antisymm (not_lt.mp hzy) (not_lt.mp hyz)
                      subst this
                      simp only [charListLe, lt_irrefl, if_false] at hbc ⊢
                      exact ih hab hbc

theorem strLe_total (a b : String) : strLe a b = true ∨ strLe b a = true :=
  charListLe_total a.data b.data

theorem strLe_trans {a b c : String} (h1 : strLe a b = true) (h2 : strLe b c = true) :
    strLe a c = true :=
  charListLe_trans h1 h2

theorem mem_sortInsert (x z : String) (l : List String) :
    z ∈ sortInsert x l ↔ z = x ∨ z ∈ l := by
  induction l with
  | nil => simp [sortInsert]
  | cons y ys ih =>
      by_cases h : strLe x y
      · simp [sortInsert, h]
      · simp [sortInsert, h, ih]
        tauto

theorem perm_sortInsert (x : String) (l : List String) :
    (sortInsert x l).Perm (x :: l) := by
  induction l with
  | nil => simp [sortInsert]
  | cons y ys ih =>
      by_cases h : strLe x y
      · simp [sortInsert, h]
      · simp only [sortInsert, h, if_false]
        exact (ih.cons y).trans (List.Perm.swap x y ys)

theorem perm_sortStrings (l : List String) : (sortStrings l).Perm l := by
  induction l with
  | nil => simp [sortStrings]
  | cons x xs ih =>
      exact (perm_sortInsert x (sortStrings xs)).trans (ih.cons x)

theorem pairwise_sortInsert (x : String) (l : List String)
    (h : l.Pairwise (fun a b => strLe a b = true)) :
    (sortInsert x l).Pairwise (fun a b => strLe a b = true) := by
  induction l with
  | nil => simp [sortInsert]
  | cons y ys ih =>
      rcases List.pairwise_cons.mp h with ⟨hy, hys⟩
      by_cases hxy : strLe x y
      · simp only [sortInsert, hxy, if_true]
        refine List.pairwise_cons.mpr ⟨?_, h⟩
        intro z hz
        rcases List.mem_cons.mp hz with rfl | hz
        · exact hxy
        · exact strLe_trans hxy (hy z hz)
      · have hyx : strLe y x = true := (strLe_total x y).resolve_left hxy
        simp only [sortInsert, hxy, if_false]
        refine List.pairwise_cons.mpr ⟨?_, ih hys⟩
        intro z hz
        rcases (mem_sortInsert x z ys).mp hz with rfl | hz
        · exact hyx
        · exact hy z hz

theorem pairwise_sortStrings (l : List String) :
    (sortStrings l).Pairwise (fun a b => strLe a b = true) := by
  induction l with
  | nil => simp [sortStrings]
  | cons x xs ih => exact pairwise_sortInsert x (sortStrings xs) ih

theorem events_foldl (cfg : Config) (rp : String → Except FsError TsNode) (dir : String) :
    ∀ (files : List String) (st : LoopState),
      (files.foldl (processOneFile cfg rp dir) st).events =
        st.events ++ fileTrace rp dir files := by
  intro files
  induction files with
  | nil => intro st; simp [fileTrace]
  | cons f fs ih =>
      intro st
      rw [List.foldl_cons, ih]
      cases h : rp (pathJoin dir f) with
      | ok ast => simp [processOneFile, h, fileTrace]
      | error e => simp [processOneFile, h, fileTrace]

theorem processed_mem_fileTrace (rp : String → Except FsError TsNode) (dir : String) :
    ∀ (files : List String) (f : String), f ∈ files →
      Event.processed f ∈ fileTrace rp dir files := by
  intro files
  induction files with
  | nil => intro f h; simp at h
  | cons g gs ih =>
      intro f h
      rcases List.mem_cons.mp h with rfl | h
      · cases hg : rp (pathJoin dir f) <;> simp [fileTrace, hg]
      · cases hg : rp (pathJoin dir g) <;> simp [fileTrace, hg, ih f h]

theorem warned_mem_fileTrace (rp : String → Except FsError TsNode) (dir : String) :
    ∀ (files : List String) (f : String) (e : FsError), f ∈ files →
      rp (pathJoin dir f) = .error e → Event.warned f ∈ fileTrace rp dir files := by
  intro files
  induction files with
  | nil => intro f e h; simp at h
  | cons g gs ih =>
      intro f e h hf
      rcases List.mem_cons.mp h with rfl | h
      · simp [fileTrace, hf]
      · cases hg : rp (pathJoin dir g) <;> simp [fileTrace, hg, ih f e h hf]

theorem wrote_not_mem_fileTrace (rp : String → Except FsError TsNode) (dir : String) :
    ∀ (files : List String) (p c : String),
      Event.wrote p c ∉ fileTrace rp dir files := by
  intro files
  induction files with
  | nil => intro p c; simp [fileTrace]
  | cons g gs ih =>
      intro p c
      cases hg : rp (pathJoin dir g) <;> simp [fileTrace, hg, ih p c]

theorem exports_foldl_lastSome (cfg : Config) (rp : String → Except FsError TsNode)
    (dir : String) :
    ∀ (files : List String) (st : LoopState) (b : String),
      mapGet (files.foldl (processOneFile cfg rp dir) st).componentExports b =
        (match lastSome? (files.map (clauseContrib cfg rp dir b)) with
         | some c => some c
         | none => mapGet st.componentExports b) := by
  intro files
  induction files with
  | nil => intro st b; simp [lastSome?]
  | cons f fs ih =>
      intro st b
      rw [List.foldl_cons, ih]
      rw [List.map_cons]
      show _ = (match lastSome? (clauseContrib cfg rp dir b f :: fs.map (clauseContrib cfg rp dir b)) with
                | some c => some c
                | none => mapGet st.componentExports b)
      cases hrest : lastSome? (fs.map (clauseContrib cfg rp dir b)) with
      | some v => simp [lastSome?, hrest]
      | none =>
          simp only [lastSome?, hrest]
          show mapGet (processOneFile cfg rp dir st f).componentExports b =
            (match clauseContrib cfg rp dir b f with
             | some c => some c
             | none => mapGet st.componentExports b)
          by_cases hb : baseNoExt f = b
          · cases hf : rp (pathJoin dir f) with
            | ok ast =>
                by_cases hlen : (fileExportClause cfg.typePatterns ast).length > 0
                · simp [processOneFile, hf, clauseContrib, hb, hlen, mapGet_mapSet]
                · simp [processOneFile, hf, clauseContrib, hb, hlen]
            | error e => simp [processOneFile, hf, clauseContrib, hb]
          · have hb2 : ¬ b = baseNoExt f := fun h => hb h.symm
            cases hf : rp (pathJoin dir f) with
            | ok ast =>
                by_cases hlen : (fileExportClause cfg.typePatterns ast).length > 0
                · simp [processOneFile, hf, clauseContrib, hb, hlen, mapGet_mapSet, hb2]
                · simp [processOneFile, hf, clauseContrib, hb, hlen]
            | error e => simp [processOneFile, hf, clauseContrib, hb]

theorem extensions_foldl_lastSome (cfg : Config) (rp : String → Except FsError TsNode)
    (dir : String) :
    ∀ (files : List String) (st : LoopState) (b : String),
      mapGet (files.foldl (processOneFile cfg rp dir) st).fileExtensions b =
        (match lastSome? (files.map (extContrib b)) with
         | some v => some v
         | none => mapGet st.fileExtensions b) := by
  intro files
  induction files with
  | nil => intro st b; simp [lastSome?]
  | cons f fs ih =>
      intro st b
      rw [List.foldl_cons, ih]
      rw [List.map_cons]
      cases hrest : lastSome? (fs.map (extContrib b)) with
      | some v => simp [lastSome?, hrest]
      | none =>
          simp only [lastSome?, hrest]
          show mapGet (processOneFile cfg rp dir st f).fileExtensions b =
            (match extContrib b f with
             | some v => some v
             | none => mapGet st.fileExtensions b)
          by_cases hb : baseNoExt f = b
          · cases hf : rp (pathJoin dir f) with
            | ok ast => simp [processOneFile, hf, extContrib, hb, mapGet_mapSet]
            | error e => simp [processOneFile, hf, extContrib, hb, mapGet_mapSet]
          · have hb2 : ¬ b = baseNoExt f := fun h => hb h.symm
            cases hf : rp (pathJoin dir f) with
            | ok ast => simp [processOneFile, hf, extContrib, hb, mapGet_mapSet, hb2]
            | error e => simp [processOneFile, hf, extContrib, hb, mapGet_mapSet, hb2]

theorem keys_foldl_sublist (cfg : Config) (rp : String → Except FsError TsNode)
    (dir : String) :
    ∀ (files : List String) (st : LoopState),
      ∃ extra,
        (files.foldl (processOneFile cfg rp dir) st).componentExports.map Prod.fst =
          st.componentExports.map Prod.fst ++ extra ∧
        extra.Sublist (files.map baseNoExt) := by
  intro files
  induction files with
  | nil => intro st; exact ⟨[], by simp⟩
  | cons f fs ih =>
      intro st
      rw [List.foldl_cons]
      rcases ih (processOneFile cfg rp dir st f) with ⟨extra, hkeys, hsub⟩
      cases hf : rp (pathJoin dir f) with
      | error e =>
          refine ⟨extra, ?_, hsub.trans (List.sublist_cons_self _ _)⟩
          rw [hkeys]
          simp [processOneFile, hf]
      | ok ast =>
          by_cases hlen : (fileExportClause cfg.typePatterns ast).length > 0
          · have hstep : (processOneFile cfg rp dir st f).componentExports =
                mapSet st.componentExports (baseNoExt f)
                  (fileExportClause cfg.typePatterns ast) := by
              simp [processOneFile, hf, hlen]
            rw [hstep, keys_mapSet] at hkeys
            by_cases hmem : baseNoExt f ∈ st.componentExports.map Prod.fst
            · rw [if_pos hmem] at hkeys
              exact ⟨extra, hkeys, hsub.trans (List.sublist_cons_self _ _)⟩
            · rw [if_neg hmem] at hkeys
              refine ⟨baseNoExt f :: extra, ?_, List.Sublist.cons₂ _ hsub⟩
              rw [hkeys, List.append_assoc]
              rfl
          · refine ⟨extra, ?_, hsub.trans (List.sublist_cons_self _ _)⟩
            rw [hkeys]
            simp [processOneFile, hf, hlen]

theorem keys_foldl_nodup (cfg : Config) (rp : String → Except FsError TsNode)
    (dir : String) :
    ∀ (files : List String) (st : LoopState),
      (st.componentExports.map Prod.fst).Nodup →
      ((files.foldl (processOneFile cfg rp dir) st).componentExports.map Prod.fst).Nodup := by
  intro files
  induction files with
  | nil => intro st h; simpa using h
  | cons f fs ih =>
      intro st h
      rw [List.foldl_cons]
      apply ih
      cases hf : rp (pathJoin dir f) with
      | error e => simpa [processOneFile, hf] using h
      | ok ast =>
          by_cases hlen : (fileExportClause cfg.typePatterns ast).length > 0
          · simpa [processOneFile, hf, hlen] using nodup_keys_mapSet _ _ _ h
          · simpa [processOneFile, hf, hlen] using h

theorem mem_sortStrings (z : String) (l : List String) :
    z ∈ sortStrings l ↔ z ∈ l :=
  (perm_sortStrings l).mem_iff

theorem extensionFor_congr (cfg : Config) (u : Bool)
    (m1 m2 : List (String × String)) (name : String)
    (h : mapGet m1 name = mapGet m2 name) :
    extensionFor cfg u m1 name = extensionFor cfg u m2 name := by
  unfold extensionFor
  rw [h]

theorem emittedRecords_congr (cfg : Config) (u : Bool) (stA stB : LoopState)
    (hexp : stA.componentExports = stB.componentExports)
    (hext : ∀ j, j ∈ stA.componentExports.map Prod.fst →
      mapGet stA.fileExtensions j = mapGet stB.fileExtensions j) :
    emittedRecords cfg u stA = emittedRecords cfg u stB := by
  unfold emittedRecords
  rw [← hexp]
  apply List.map_congr_left
  intro name hname
  have hkey : name ∈ stA.componentExports.map Prod.fst := by
    by_cases hs : cfg.sortAlphabetically
    · simp only [hs, if_true] at hname
      exact (mem_sortStrings name _).mp hname
    · simpa [hs] using hname
  have : extensionFor cfg u stA.fileExtensions name =
      extensionFor cfg u stB.fileExtensions name :=
    extensionFor_congr cfg u _ _ name (hext name hkey)
  simp [this]

/-- The relation preserved between the loop run with and without a failed file
whose base name is `k`: equal export maps, extension maps agreeing outside `k`. -/
theorem foldl_rel (cfg : Config) (rp : String → Except FsError TsNode)
    (dir : String) (k : String) :
    ∀ (files : List String) (s t : LoopState),
      s.componentExports = t.componentExports →
      (∀ j, j ≠ k → mapGet s.fileExtensions j = mapGet t.fileExtensions j) →
      (files.foldl (processOneFile cfg rp dir) s).componentExports =
        (files.foldl (processOneFile cfg rp dir) t).componentExports ∧
      (∀ j, j ≠ k →
        mapGet (files.foldl (processOneFile cfg rp dir) s).fileExtensions j =
          mapGet (files.foldl (processOneFile cfg rp dir) t).fileExtensions j) := by
  intro files
  induction files with
  | nil => intro s t h1 h2; exact ⟨h1, h2⟩
  | cons f fs ih =>
      intro s t h1 h2
      rw [List.foldl_cons, List.foldl_cons]
      apply ih
      · cases hf : rp (pathJoin dir f) with
        | ok ast => simp [processOneFile, hf, h1]
        | error e => simp [processOneFile, hf, h1]
      · intro j hj
        cases hf : rp (pathJoin dir f) with
        | ok ast => simp [processOneFile, hf, mapGet_mapSet, h2 j hj]
        | error e => simp [processOneFile, hf, mapGet_mapSet, h2 j hj]

theorem countNL_append (a b : String) : countNL (a ++ b) = countNL a + countNL b := by
  cases a with
  | mk da =>
      cases b with
      | mk db => simp [countNL, String.data_append, List.count_append]

theorem countNL_joinSep_zero (sep : String) :
    ∀ (l : List String), countNL sep = 0 → (∀ s ∈ l, countNL s = 0) →
      countNL (joinSep sep l) = 0 := by
  intro l
  induction l with
  | nil => intro _ _; rfl
  | cons x xs ih =>
      intro hsep h
      cases xs with
      | nil => exact h x (List.mem_singleton.mpr rfl)
      | cons y ys =>
          rw [joinSep, countNL_append, countNL_append]
          rw [h x (List.mem_cons_self _ _), hsep,
            ih hsep (fun s hs => h s (List.mem_cons_of_mem _ hs))]

theorem countNL_joinSep_multi :
    ∀ (l : List String), (∀ s ∈ l, countNL s = 0) →
      countNL (joinSep ",\n  " l) = l.length - 1 := by
  intro l
  induction l with
  | nil => intro _; rfl
  | cons x xs ih =>
      intro h
      cases xs with
      | nil => simpa [joinSep] using h x (List.mem_singleton.mpr rfl)
      | cons y ys =>
          rw [joinSep, countNL_append, countNL_append]
          rw [h x (List.mem_cons_self _ _),
            ih (fun s hs => h s (List.mem_cons_of_mem _ hs))]
          simp [countNL]
          omega

theorem emitted_names (cfg : Config) (u : Bool) (st : LoopState) :
    (emittedRecords cfg u st).map EmitRecord.componentName =
      (if cfg.sortAlphabetically then sortStrings (st.componentExports.map Prod.fst)
       else st.componentExports.map Prod.fst) := by
  simp only [emittedRecords, List.map_map]
  have : (EmitRecord.componentName ∘ fun componentName =>
      ({ componentName := componentName,
         exports := (mapGet st.componentExports componentName).getD [],
         extension := extensionFor cfg u st.fileExtensions componentName } : EmitRecord)) =
      fun n => n := rfl
  rw [this]
  simp

mutual
theorem node_type_mem (p : ExportShape → Bool) (name : String)
    (hp : ∀ s, p s = true → name ∈ (shapeExports s).2) :
    ∀ (t : TsNode), nodeHasShape p t = true → name ∈ (extractExports t).2
  | .mk shape children, h => by
      rw [nodeHasShape] at h
      rw [extractExports]
      rcases Bool.or_eq_true_iff.mp h with h1 | h1
      · exact List.mem_append_left _ (hp shape h1)
      · exact List.mem_append_right _ (list_type_mem p name hp children h1)

theorem list_type_mem (p : ExportShape → Bool) (name : String)
    (hp : ∀ s, p s = true → name ∈ (shapeExports s).2) :
    ∀ (ts : TsNodeList), listHasShape p ts = true → name ∈ (extractExportsList ts).2
  | .nil, h => by rw [listHasShape] at h; exact absurd h (by simp)
  | .cons n ns, h => by
      rw [listHasShape] at h
      rw [extractExportsList]
      rcases Bool.or_eq_true_iff.mp h with h1 | h1
      · exact List.mem_append_left _ (node_type_mem p name hp n h1)
      · exact List.mem_append_right _ (list_type_mem p name hp ns h1)
end

mutual
theorem node_value_mem (p : ExportShape → Bool) (name : String)
    (hp : ∀ s, p s = true → name ∈ (shapeExports s).1) :
    ∀ (t : TsNode), nodeHasShape p t = true → name ∈ (extractExports t).1
  | .mk shape children, h => by
      rw [nodeHasShape] at h
      rw [extractExports]
      rcases Bool.or_eq_true_iff.mp h with h1 | h1
      · exact List.mem_append_left _ (hp shape h1)
      · exact List.mem_append_right _ (list_value_mem p name hp children h1)

theorem list_value_mem (p : ExportShape → Bool) (name : String)
    (hp : ∀ s, p s = true → name ∈ (shapeExports s).1) :
    ∀ (ts : TsNodeList), listHasShape p ts = true → name ∈ (extractExportsList ts).1
  | .nil, h => by rw [listHasShape] at h; exact absurd h (by simp)
  | .cons n ns, h => by
      rw [listHasShape] at h
      rw [extractExportsList]
      rcases Bool.or_eq_true_iff.mp h with h1 | h1
      · exact List.mem_append_left _ (node_value_mem p name hp n h1)
      · exact List.mem_append_right _ (list_value_mem p name hp ns h1)
end

/-- C6: for every source file containing `export interface Foo \x7b\x7d` or
`export type Foo = ...`, the export clause generated for that file (the
specifier list built at source lines 376-398 and rendered into the file's
statement) contains the specifier `type Foo`, regardless of whether `Foo`
matches any configured type pattern. -/
theorem interface_and_alias_exports_marked_type
    (typePatterns : List (String → Bool)) (ast : TsNode) (Foo : String)
    (h : nodeHasShape (isTypeDeclOf Foo) ast = true) :
    ("type " ++ Foo) ∈ fileExportClause typePatterns ast := by
  have hmem : Foo ∈ (extractExports ast).2 := by
    refine node_type_mem _ _ ?_ ast h
    intro s hs
    cases s with
    | namedExportDecl elems => simp [isTypeDeclOf] at hs
    | exportedVarStatement names => simp [isTypeDeclOf] at hs
    | exportedTypeAlias n =>
        have hn : n = Foo := by simpa [isTypeDeclOf] using hs
        subst hn; simp [shapeExports]
    | exportedInterface n =>
        have hn : n = Foo := by simpa [isTypeDeclOf] using hs
        subst hn; simp [shapeExports]
    | exportedFunction n => simp [isTypeDeclOf] at hs
    | defaultExportIdent n => simp [isTypeDeclOf] at hs
    | defaultExportAnonFn => simp [isTypeDeclOf] at hs
    | otherNode => simp [isTypeDeclOf] at hs
  unfold fileExportClause
  refine List.mem_append_right _ ?_
  exact List.mem_map.mpr ⟨Foo, List.mem_append_left _ hmem, rfl⟩

theorem interface_and_alias_marked_type_witness :
    ("type " ++ "ButtonProps") ∈ fileExportClause defaultTypePatterns astInterfaceAlias ∧
    ("type " ++ "CardVariant") ∈ fileExportClause defaultTypePatterns astInterfaceAlias :=
  ⟨interface_and_alias_exports_marked_type defaultTypePatterns astInterfaceAlias
      "ButtonProps" (by decide),
   interface_and_alias_exports_marked_type defaultTypePatterns astInterfaceAlias
      "CardVariant" (by decide)⟩

/-- C7: for every source file containing `export const Foo = ...`, the export
clause generated for that file contains `Foo` as a plain specifier when `Foo`
matches no configured type pattern, and contains `type Foo` — with the
reclassification counter incremented at least once for the file — when it
matches at least one pattern. -/
theorem const_export_classification
    (typePatterns : List (String → Bool)) (ast : TsNode) (Foo : String)
    (h : nodeHasShape (isConstDeclOf Foo) ast = true) :
    (shouldBeType Foo typePatterns = false → Foo ∈ fileExportClause typePatterns ast) ∧
    (shouldBeType Foo typePatterns = true →
      ("type " ++ Foo) ∈ fileExportClause typePatterns ast ∧
      1 ≤ fileReclassifiedCount typePatterns ast) := by
  have hmem : Foo ∈ (extractExports ast).1 := by
    refine node_value_mem _ _ ?_ ast h
    intro s hs
    cases s with
    | namedExportDecl elems => simp [isConstDeclOf] at hs
    | exportedVarStatement names =>
        have hn : Foo ∈ names := by simpa [isConstDeclOf] using hs
        simpa [shapeExports] using hn
    | exportedTypeAlias n => simp [isConstDeclOf] at hs
    | exportedInterface n => simp [isConstDeclOf] at hs
    | exportedFunction n => simp [isConstDeclOf] at hs
    | defaultExportIdent n => simp [isConstDeclOf] at hs
    | defaultExportAnonFn => simp [isConstDeclOf] at hs
    | otherNode => simp [isConstDeclOf] at hs
  constructor
  · intro hnot
    unfold fileExportClause
    refine List.mem_append_left _ ?_
    exact List.mem_filter.mpr ⟨hmem, by simp [hnot]⟩
  · intro hyes
    constructor
    · unfold fileExportClause
      refine List.mem_append_right _ ?_
      exact List.mem_map.mpr
        ⟨Foo, List.mem_append_right _ (List.mem_filter.mpr ⟨hmem, hyes⟩), rfl⟩
    · unfold fileReclassifiedCount
      have hin : Foo ∈ (extractExports ast).1.filter (fun n => shouldBeType n typePatterns) :=
        List.mem_filter.mpr ⟨hmem, hyes⟩
      have := List.length_pos.mpr (List.ne_nil_of_mem hin)
      omega

theorem const_export_classification_witness :
    "Button" ∈ fileExportClause defaultTypePatterns astConstDecls ∧
    ("type " ++ "ChartConfig") ∈ fileExportClause defaultTypePatterns astConstDecls ∧
    1 ≤ fileReclassifiedCount defaultTypePatterns astConstDecls := by
  refine ⟨?_, ?_⟩
  · exact (const_export_classification defaultTypePatterns astConstDecls "Button"
      (by decide)).1 (by decide)
  · exact (const_export_classification defaultTypePatterns astConstDecls "ChartConfig"
      (by decide)).2 (by decide)

/-- C8: a file whose combined export list has at most `singleLineThreshold`
entries is rendered as one single line (exactly the trailing newline); a file
with `singleLineThreshold + 1` or more entries is rendered multi-line with one
specifier per line (`length + 2` newlines).  In particular a file with exactly
`singleLineThreshold` exports renders single-line. -/
theorem single_line_threshold_boundary (threshold : Nat) (exps : List String)
    (componentName extension : String)
    (hx : ∀ s ∈ exps, countNL s = 0) (hn : countNL componentName = 0)
    (he : countNL extension = 0) :
    (exps.length ≤ threshold →
      countNL (renderStatement threshold exps componentName extension) = 1) ∧
    (threshold + 1 ≤ exps.length →
      countNL (renderStatement threshold exps componentName extension) = exps.length + 2) := by
  constructor
  · intro h
    rw [renderStatement, if_pos h]
    rw [countNL_append, countNL_append, countNL_append, countNL_append, countNL_append]
    rw [countNL_joinSep_zero ", " exps (by rfl) hx, hn, he]
    decide
  · intro h
    have hnot : ¬ exps.length ≤ threshold := by omega
    rw [renderStatement, if_neg hnot]
    rw [countNL_append, countNL_append, countNL_append, countNL_append, countNL_append]
    rw [countNL_joinSep_multi exps hx, hn, he]
    have h1 : countNL "export \x7b\n  " = 1 := by decide
    have h2 : countNL "\n\x7d from \"./" = 1 := by decide
    have h3 : countNL "\";\n" = 1 := by decide
    rw [h1, h2, h3]
    omega

theorem single_line_threshold_witness :
    countNL (renderStatement 3 ["A", "B", "C"] "button" "") = 1 ∧
    countNL (renderStatement 3 ["A", "B", "C", "D"] "button" "") = 6 :=
  ⟨(single_line_threshold_boundary 3 ["A", "B", "C"] "button" ""
      (by decide) (by decide) (by decide)).1 (by decide),
   (single_line_threshold_boundary 3 ["A", "B", "C", "D"] "button" ""
      (by decide) (by decide) (by decide)).2 (by decide)⟩

theorem emitted_eq (env : Env) (cfg : Config) (files : List String)
    (hstat : env.statDirError = none) (hls : env.readdirResult = .ok files) :
    (generateIndex env cfg).emitted = some (mainEmitted env cfg files) := by
  unfold generateIndex mainEmitted mainState runFiles
  rw [hstat, hls]
  by_cases hd : cfg.dryRun
  · simp [hd]
  · cases hw : env.writeError with
    | none => simp [hd, hw]
    | some e => simp [hd, hw]

theorem rendered_eq (env : Env) (cfg : Config) (files : List String)
    (hstat : env.statDirError = none) (hls : env.readdirResult = .ok files) :
    (generateIndex env cfg).rendered = some (mainRendered env cfg files) := by
  unfold generateIndex mainRendered mainEmitted mainState runFiles renderedIndex
  rw [hstat, hls]
  by_cases hd : cfg.dryRun
  · simp [hd]
  · cases hw : env.writeError with
    | none => simp [hd, hw]
    | some e => simp [hd, hw]

theorem mainState_events (env : Env) (cfg : Config) (files : List String) :
    (mainState env cfg files).events =
      fileTrace env.readAndParse (resolvedComponentsDir env cfg) (scanFilter cfg files) := by
  unfold mainState runFiles
  rw [events_foldl]
  rfl

theorem events_eq_main (env : Env) (cfg : Config) (files : List String)
    (hstat : env.statDirError = none) (hls : env.readdirResult = .ok files) :
    (generateIndex env cfg).events =
      fileTrace env.readAndParse (resolvedComponentsDir env cfg) (scanFilter cfg files) ++
      (if cfg.dryRun then [Event.printed (mainRendered env cfg files)]
       else
        match env.writeError with
        | none => [Event.wrote (outIndexPath env cfg) (mainRendered env cfg files)]
        | some e2 => [Event.wrote (outIndexPath env cfg) (mainRendered env cfg files),
                      Event.errorReported e2]) := by
  have hev : (List.foldl (processOneFile cfg env.readAndParse (resolvedComponentsDir env cfg))
      initLoopState (scanFilter cfg files)).events =
      fileTrace env.readAndParse (resolvedComponentsDir env cfg) (scanFilter cfg files) :=
    mainState_events env cfg files
  unfold generateIndex
  rw [hstat, hls]
  by_cases hd : cfg.dryRun
  · simp [hd, mainRendered, mainEmitted, mainState, runFiles, renderedIndex, hev]
  · cases hw : env.writeError with
    | none =>
        simp [hd, hw, mainRendered, mainEmitted, mainState, runFiles, renderedIndex, hev]
    | some e2 =>
        simp [hd, hw, mainRendered, mainEmitted, mainState, runFiles, renderedIndex, hev]

theorem strAppend_empty (s : String) : s ++ "" = s := by
  cases s with
  | mk d =>
      show String.mk (d ++ []) = String.mk d
      rw [List.append_nil]

/-- C1 counterexample: with `--ext .js` configured but the project neither
ESM-detected nor run with `--force-extensions`, the generated specifier is
`./button` with no extension at all: the override is ignored, because it is
only consulted inside the `if (useExplicitExtensions)` branch (source lines
443-448). -/
theorem extOverride_ignored_without_esm_cx :
    (generateIndex envBase cfgExtOverride).emitted =
      some [{ componentName := "button", exports := ["Button"], extension := "" }] ∧
    (generateIndex envBase cfgExtOverride).rendered =
      some ("// ui\n" ++ "export \x7b Button \x7d from \"./button\";\n") ∧
    ("" : String) ≠ normalizeOverride cfgExtOverride.extensionOverride :=
  ⟨by decide, by decide, by decide⟩

/-- C1 (amended): a non-empty `extensionOverride` is applied to every emitted
module specifier — with a leading dot added when missing, overriding both the
actual-source-extension mode and the `.js` auto-conversion — exactly when
explicit-extension emission is active, i.e. when `forceExplicitExtensions` is
set or the project is detected as ESM; when neither holds, the override is
ignored and specifiers carry no extension. -/
theorem extOverride_applies_only_with_explicit_extensions
    (env : Env) (cfg : Config) (files : List String) (l : List EmitRecord)
    (hstat : env.statDirError = none)
    (hls : env.readdirResult = .ok files)
    (hl : (generateIndex env cfg).emitted = some l) :
    ((cfg.forceExplicitExtensions || env.esmDetected) = true →
      cfg.extensionOverride ≠ "" →
      ∀ r ∈ l, r.extension = normalizeOverride cfg.extensionOverride) ∧
    ((cfg.forceExplicitExtensions || env.esmDetected) = false →
      ∀ r ∈ l, r.extension = "") := by
  have he := emitted_eq env cfg files hstat hls
  rw [hl] at he
  have hle : l = mainEmitted env cfg files := Option.some.inj he
  constructor
  · intro hu hov r hr
    rw [hle] at hr
    obtain ⟨name, hname, rfl⟩ :=
      List.mem_map.mp (by simpa [mainEmitted, emittedRecords] using hr)
    simp [extensionFor, hu, hov]
  · intro hu r hr
    rw [hle] at hr
    obtain ⟨name, hname, rfl⟩ :=
      List.mem_map.mp (by simpa [mainEmitted, emittedRecords] using hr)
    simp [extensionFor, hu]

theorem extOverride_applies_witness :
    ({ componentName := "button", exports := ["Button"], extension := ".js" } :
      EmitRecord).extension = normalizeOverride cfgExtOverride.extensionOverride :=
  (extOverride_applies_only_with_explicit_extensions envEsm cfgExtOverride
      ["button.tsx"]
      [{ componentName := "button", exports := ["Button"], extension := ".js" }]
      rfl rfl (by decide)).1 (by decide) (by decide)
    { componentName := "button", exports := ["Button"], extension := ".js" } (by decide)

/-- C2 (amended): when every file of the directory listing matches one of the
configured exclude patterns, the generated text is exactly the header comment,
with no export statement. -/
theorem all_excluded_yields_header_only
    (env : Env) (cfg : Config) (files : List String)
    (hstat : env.statDirError = none)
    (hls : env.readdirResult = .ok files)
    (hex : ∀ f ∈ files, (cfg.exclude.any fun pattern => pattern f) = true) :
    (generateIndex env cfg).rendered = some cfg.headerComment := by
  have hfilter : scanFilter cfg files = [] := by
    unfold scanFilter
    rw [List.filter_eq_nil_iff]
    intro f hf
    simp [hex f hf]
  rw [rendered_eq env cfg files hstat hls]
  unfold mainRendered mainEmitted mainState runFiles
  rw [hfilter]
  have hrec : emittedRecords cfg (cfg.forceExplicitExtensions || env.esmDetected)
      initLoopState = [] := by
    simp [emittedRecords, initLoopState, sortStrings]
  show some (renderedIndex cfg (emittedRecords cfg _ initLoopState)) = _
  rw [hrec]
  unfold renderedIndex
  rw [List.map_nil]
  show some (cfg.headerComment ++ "") = some cfg.headerComment
  rw [strAppend_empty]

/-- C2 counterexample: exclusion is decided by the fixed configured patterns
(`/index\.ts$/` among the defaults), not by the configured output file name: a
directory holding only the configured output file `exports.ts` produces an
export statement for it, not a header-only file. -/
theorem outputFile_not_excluded_cx :
    (generateIndex envOutputTs cfgOutputTs).rendered =
      some ("// ui\n" ++ "export \x7b Foo \x7d from \"./exports\";\n") ∧
    ("// ui\n" ++ "export \x7b Foo \x7d from \"./exports\";\n") ≠
      cfgOutputTs.headerComment :=
  ⟨by decide, by decide⟩

theorem all_excluded_witness :
    (generateIndex envAllExcluded cfgBase).rendered = some cfgBase.headerComment :=
  all_excluded_yields_header_only envAllExcluded cfgBase
    ["button.stories.tsx", "types.d.ts", "index.ts", "card.test.ts"]
    rfl rfl (by decide)

/-- C4: under dry run the output file is never written, on any path; when dry
run is off and the run reaches the per-file loop, there is exactly one write
call — carrying the full rendered text, placed after every per-file event
(even when the write itself then fails) — and the run is independent of
whatever the output file previously held (it overwrites unconditionally). -/
theorem dryRun_no_write_and_single_write_after_processing (env : Env) (cfg : Config) :
    (cfg.dryRun = true → ∀ p c, Event.wrote p c ∉ (generateIndex env cfg).events) ∧
    (cfg.dryRun = false → env.statDirError = none →
      ∀ files, env.readdirResult = .ok files →
      ((generateIndex env cfg).events =
        fileTrace env.readAndParse (resolvedComponentsDir env cfg) (scanFilter cfg files) ++
        (match env.writeError with
         | none => [Event.wrote (outIndexPath env cfg) (mainRendered env cfg files)]
         | some e2 => [Event.wrote (outIndexPath env cfg) (mainRendered env cfg files),
                       Event.errorReported e2])) ∧
      (∀ p c, Event.wrote p c ∉
        fileTrace env.readAndParse (resolvedComponentsDir env cfg) (scanFilter cfg files)) ∧
      (∀ f ∈ scanFilter cfg files, Event.processed f ∈
        fileTrace env.readAndParse (resolvedComponentsDir env cfg) (scanFilter cfg files)) ∧
      (generateIndex env cfg).rendered = some (mainRendered env cfg files)) ∧
    (∀ x, generateIndex { env with priorOutputContent := x } cfg = generateIndex env cfg) := by
  refine ⟨?_, ?_, ?_⟩
  · intro hd p c
    cases hstat : env.statDirError with
    | some e =>
        unfold generateIndex
        rw [hstat]
        by_cases hc : e.code = some "ENOENT" <;> simp [hc]
    | none =>
        cases hls : env.readdirResult with
        | error e =>
            unfold generateIndex
            rw [hstat, hls]
            simp
        | ok files =>
            rw [events_eq_main env cfg files hstat hls]
            simp only [hd, if_true]
            intro hmem
            rcases List.mem_append.mp hmem with h | h
            · exact wrote_not_mem_fileTrace _ _ _ p c h
            · simp at h
  · intro hd hstat files hls
    refine ⟨?_, fun p c => wrote_not_mem_fileTrace _ _ _ p c,
      fun f hf => processed_mem_fileTrace _ _ _ f hf,
      rendered_eq env cfg files hstat hls⟩
    rw [events_eq_main env cfg files hstat hls]
    simp [hd]
  · intro x
    rfl

theorem dryRun_single_write_witness :
    Event.wrote "/ui/index.ts" "// ui\n" ∉ (generateIndex envBase cfgDryRun).events ∧
    (generateIndex envBase cfgBase).events =
      [Event.processed "button.tsx",
       Event.wrote "/ui/index.ts"
         ("// ui\n" ++ "export \x7b Button \x7d from \"./button\";\n")] ∧
    generateIndex { envBase with priorOutputContent := some "old" } cfgBase =
      generateIndex envBase cfgBase := by
  refine ⟨?_, ?_, ?_⟩
  · exact (dryRun_no_write_and_single_write_after_processing envBase cfgDryRun).1 rfl _ _
  · have h := ((dryRun_no_write_and_single_write_after_processing envBase cfgBase).2.1
      rfl rfl ["button.tsx"] rfl).1
    exact h.trans (by decide)
  · exact (dryRun_no_write_and_single_write_after_processing envBase cfgBase).2.2
      (some "old")

/-- C5: an ENOENT on the directory stat is reported and the run returns with
exit code 0 and performs nothing else; any other stat error, a readdir error,
or a write error is reported through the outer catch and sets the process exit
code to 1. -/
theorem exit_codes_on_fs_errors (env : Env) (cfg : Config) :
    (∀ e, env.statDirError = some e → e.code = some "ENOENT" →
      (generateIndex env cfg).exitCode = 0 ∧
      (generateIndex env cfg).events =
        [Event.dirNotFound (resolvedComponentsDir env cfg)]) ∧
    (∀ e, env.statDirError = some e → e.code ≠ some "ENOENT" →
      (generateIndex env cfg).exitCode = 1 ∧
      Event.errorReported e ∈ (generateIndex env cfg).events) ∧
    (∀ e, env.statDirError = none → env.readdirResult = .error e →
      (generateIndex env cfg).exitCode = 1 ∧
      Event.errorReported e ∈ (generateIndex env cfg).events) ∧
    (∀ e files, env.statDirError = none → env.readdirResult = .ok files →
      cfg.dryRun = false → env.writeError = some e →
      (generateIndex env cfg).exitCode = 1 ∧
      Event.errorReported e ∈ (generateIndex env cfg).events) := by
  refine ⟨?_, ?_, ?_, ?_⟩
  · intro e hstat hc
    unfold generateIndex
    rw [hstat]
    simp [hc]
  · intro e hstat hc
    unfold generateIndex
    rw [hstat]
    simp [hc]
  · intro e hstat hls
    unfold generateIndex
    rw [hstat, hls]
    simp
  · intro e files hstat hls hd hw
    constructor
    · unfold generateIndex
      rw [hstat, hls]
      simp [hd, hw]
    · rw [events_eq_main env cfg files hstat hls]
      simp [hd, hw]

theorem exit_codes_witness :
    (generateIndex envEnoent cfgBase).exitCode = 0 ∧
    (generateIndex envEacces cfgBase).exitCode = 1 ∧
    (generateIndex envReaddirFail cfgBase).exitCode = 1 ∧
    (generateIndex envWriteFail cfgBase).exitCode = 1 :=
  ⟨((exit_codes_on_fs_errors envEnoent cfgBase).1 ⟨some "ENOENT", "missing"⟩ rfl rfl).1,
   ((exit_codes_on_fs_errors envEacces cfgBase).2.1 ⟨some "EACCES", "denied"⟩ rfl
      (by decide)).1,
   ((exit_codes_on_fs_errors envReaddirFail cfgBase).2.2.1 ⟨some "EACCES", "denied"⟩ rfl
      rfl).1,
   ((exit_codes_on_fs_errors envWriteFail cfgBase).2.2.2 ⟨none, "disk full"⟩ ["button.tsx"]
      rfl rfl rfl rfl).1⟩

/-- C9: with sorting enabled the emitted statements are in strictly increasing
lexicographic order of the derived base names; with sorting disabled they are
an order-preserving subsequence of the scanned files in enumeration order
(one statement per first occurrence of each base name). -/
theorem statement_ordering (env : Env) (cfg : Config) (files : List String)
    (l : List EmitRecord)
    (hstat : env.statDirError = none) (hls : env.readdirResult = .ok files)
    (hl : (generateIndex env cfg).emitted = some l) :
    (cfg.sortAlphabetically = true →
      (l.map EmitRecord.componentName).Pairwise (fun a b => strLe a b = true ∧ a ≠ b)) ∧
    (cfg.sortAlphabetically = false →
      (l.map EmitRecord.componentName).Sublist ((scanFilter cfg files).map baseNoExt)) := by
  have he := emitted_eq env cfg files hstat hls
  rw [hl] at he
  have hle : l = mainEmitted env cfg files := Option.some.inj he
  subst hle
  have hnames : (mainEmitted env cfg files).map EmitRecord.componentName =
      (if cfg.sortAlphabetically then
        sortStrings ((mainState env cfg files).componentExports.map Prod.fst)
       else (mainState env cfg files).componentExports.map Prod.fst) :=
    emitted_names cfg (cfg.forceExplicitExtensions || env.esmDetected)
      (mainState env cfg files)
  have hkeysN : ((mainState env cfg files).componentExports.map Prod.fst).Nodup := by
    unfold mainState runFiles
    exact keys_foldl_nodup _ _ _ _ initLoopState (by simp [initLoopState])
  constructor
  · intro hs
    rw [hnames, if_pos hs]
    refine (pairwise_sortStrings _).and ?_
    exact ((perm_sortStrings _).symm.nodup hkeysN : List.Nodup _)
  · intro hs
    rw [hnames, if_neg (by simp [hs])]
    obtain ⟨extra, hkeys, hsub⟩ := keys_foldl_sublist cfg env.readAndParse
      (resolvedComponentsDir env cfg) (scanFilter cfg files) initLoopState
    have : (mainState env cfg files).componentExports.map Prod.fst = extra := by
      unfold mainState runFiles
      simpa [initLoopState] using hkeys
    rw [this]
    exact hsub

theorem statement_ordering_witness :
    (List.map EmitRecord.componentName
      [{ componentName := "button", exports := ["Button"], extension := "" },
       { componentName := "card", exports := ["Button"], extension := "" }]).Pairwise
      (fun a b => strLe a b = true ∧ a ≠ b) ∧
    (List.map EmitRecord.componentName
      [{ componentName := "card", exports := ["Button"], extension := "" },
       { componentName := "button", exports := ["Button"], extension := "" }]).Sublist
      ((scanFilter cfgNoSort ["card.tsx", "button.tsx"]).map baseNoExt) :=
  ⟨(statement_ordering envTwoFiles cfgBase ["card.tsx", "button.tsx"]
      [{ componentName := "button", exports := ["Button"], extension := "" },
       { componentName := "card", exports := ["Button"], extension := "" }]
      rfl rfl (by decide)).1 rfl,
   (statement_ordering envTwoFiles cfgNoSort ["card.tsx", "button.tsx"]
      [{ componentName := "card", exports := ["Button"], extension := "" },
       { componentName := "button", exports := ["Button"], extension := "" }]
      rfl rfl (by decide)).2 rfl⟩

/-- C10 (amended): aggregation is keyed by derived base name, so the output has
at most one statement per base name; the statement's export list is that of
the last enumerated file with that base name which parsed successfully and
yielded a non-empty clause (a later same-base file with no exports does not
replace it), while under `--force-extensions` the recorded source extension is
that of the last enumerated file with that base name regardless of its parse
or export outcome. -/
theorem duplicate_basename_last_wins (env : Env) (cfg : Config) (files : List String)
    (l : List EmitRecord)
    (hstat : env.statDirError = none) (hls : env.readdirResult = .ok files)
    (hl : (generateIndex env cfg).emitted = some l) :
    (l.map EmitRecord.componentName).Nodup ∧
    (∀ r ∈ l, some r.exports =
      lastSome? ((scanFilter cfg files).map
        (clauseContrib cfg env.readAndParse (resolvedComponentsDir env cfg)
          r.componentName))) ∧
    (cfg.forceExplicitExtensions = true → cfg.extensionOverride = "" →
      ∀ r ∈ l, r.extension =
        (lastSome? ((scanFilter cfg files).map (extContrib r.componentName))).getD "") := by
  have he := emitted_eq env cfg files hstat hls
  rw [hl] at he
  have hle : l = mainEmitted env cfg files := Option.some.inj he
  subst hle
  have hnames : (mainEmitted env cfg files).map EmitRecord.componentName =
      (if cfg.sortAlphabetically then
        sortStrings ((mainState env cfg files).componentExports.map Prod.fst)
       else (mainState env cfg files).componentExports.map Prod.fst) :=
    emitted_names cfg (cfg.forceExplicitExtensions || env.esmDetected)
      (mainState env cfg files)
  have hkeysN : ((mainState env cfg files).componentExports.map Prod.fst).Nodup := by
    unfold mainState runFiles
    exact keys_foldl_nodup _ _ _ _ initLoopState (by simp [initLoopState])
  refine ⟨?_, ?_, ?_⟩
  · rw [hnames]
    by_cases hs : cfg.sortAlphabetically
    · rw [if_pos hs]
      exact ((perm_sortStrings _).symm.nodup hkeysN : List.Nodup _)
    · rw [if_neg hs]
      exact hkeysN
  · intro r hr
    obtain ⟨name, hname, rfl⟩ :=
      List.mem_map.mp (by simpa [mainEmitted, emittedRecords] using hr)
    have hkey : name ∈ (mainState env cfg files).componentExports.map Prod.fst := by
      by_cases hs : cfg.sortAlphabetically
      · exact (mem_sortStrings name _).mp (by simpa [hs] using hname)
      · simpa [hs] using hname
    obtain ⟨v, hv⟩ := mapGet_eq_some_of_mem_keys _ name hkey
    have hchar : mapGet (mainState env cfg files).componentExports name =
        (match lastSome? ((scanFilter cfg files).map
            (clauseContrib cfg env.readAndParse (resolvedComponentsDir env cfg) name)) with
         | some c => some c
         | none => mapGet initLoopState.componentExports name) :=
      exports_foldl_lastSome cfg env.readAndParse (resolvedComponentsDir env cfg)
        (scanFilter cfg files) initLoopState name
    cases hL : lastSome? ((scanFilter cfg files).map
        (clauseContrib cfg env.readAndParse (resolvedComponentsDir env cfg) name)) with
    | none =>
        rw [hL] at hchar
        simp [initLoopState, mapGet] at hchar
        rw [hchar] at hv
        exact absurd hv (by simp)
    | some c =>
        rw [hL] at hchar
        simp only [EmitRecord.exports]
        rw [hchar]
        rfl
  · intro hf hov r hr
    obtain ⟨name, hname, rfl⟩ :=
      List.mem_map.mp (by simpa [mainEmitted, emittedRecords] using hr)
    have hchar : mapGet (mainState env cfg files).fileExtensions name =
        (match lastSome? ((scanFilter cfg files).map (extContrib name)) with
         | some v => some v
         | none => mapGet initLoopState.fileExtensions name) :=
      extensions_foldl_lastSome cfg env.readAndParse (resolvedComponentsDir env cfg)
        (scanFilter cfg files) initLoopState name
    simp only [EmitRecord.extension]
    rw [show extensionFor cfg (cfg.forceExplicitExtensions || env.esmDetected)
        (mainState env cfg files).fileExtensions name =
        (mapGet (mainState env cfg files).fileExtensions name).getD "" by
      simp [extensionFor, hf, hov]]
    cases hL : lastSome? ((scanFilter cfg files).map (extContrib name)) with
    | none =>
        rw [hL] at hchar
        simp [initLoopState, mapGet] at hchar
        rw [hchar]
    | some v =>
        rw [hL] at hchar
        rw [hchar]

theorem duplicate_basename_witness :
    (List.map EmitRecord.componentName
      [{ componentName := "button", exports := ["B"], extension := ".tsx" }]).Nodup ∧
    some (["B"] : List String) =
      lastSome? ((scanFilter cfgForceExt ["button.ts", "button.tsx"]).map
        (clauseContrib cfgForceExt envDup.readAndParse
          (resolvedComponentsDir envDup cfgForceExt) "button")) ∧
    (".tsx" : String) =
      (lastSome? ((scanFilter cfgForceExt ["button.ts", "button.tsx"]).map
        (extContrib "button"))).getD "" :=
  ⟨(duplicate_basename_last_wins envDup cfgForceExt ["button.ts", "button.tsx"]
      [{ componentName := "button", exports := ["B"], extension := ".tsx" }]
      rfl rfl (by decide)).1,
   (duplicate_basename_last_wins envDup cfgForceExt ["button.ts", "button.tsx"]
      [{ componentName := "button", exports := ["B"], extension := ".tsx" }]
      rfl rfl (by decide)).2.1
     { componentName := "button", exports := ["B"], extension := ".tsx" } (by decide),
   (duplicate_basename_last_wins envDup cfgForceExt ["button.ts", "button.tsx"]
      [{ componentName := "button", exports := ["B"], extension := ".tsx" }]
      rfl rfl (by decide)).2.2 rfl rfl
     { componentName := "button", exports := ["B"], extension := ".tsx" } (by decide)⟩

/-- C10 counterexample: when the last file with a shared base name yields an
empty export list, it does not replace the earlier file's exports — the output
still carries the earlier file's list (`allExports.length > 0` guards the
`Map.set`, source line 400). -/
theorem duplicate_basename_empty_last_cx :
    (generateIndex envDupEmptyLast cfgBase).emitted =
      some [{ componentName := "button", exports := ["A"], extension := "" }] ∧
    fileExportClause cfgBase.typePatterns astEmpty = [] ∧
    (["A"] : List String) ≠ ([] : List String) :=
  ⟨by decide, by decide, by decide⟩

/-- C3 (amended): when reading or parsing one scanned file throws, the run
warns naming that file, records no exports for it, and still processes every
scanned file; and — provided no other listed file shares the failed file's
derived base name — the rendered output and emission data equal those of the
run over the remaining files alone.  (Without that proviso the failed file can
still influence the output: its extension is recorded before the try block and
can replace a same-named successful file's recorded extension.) -/
theorem failed_file_skipped_and_output_preserved
    (env : Env) (cfg : Config) (pre post : List String) (bad : String) (e : FsError)
    (hstat : env.statDirError = none)
    (hls : env.readdirResult = .ok (pre ++ bad :: post))
    (hinc : cfg.includePat bad = true)
    (hexc : (cfg.exclude.any fun pattern => pattern bad) = false)
    (hfail : env.readAndParse
      (pathJoin (resolvedComponentsDir env cfg) bad) = .error e)
    (hdisj : ∀ f ∈ pre ++ post, baseNoExt f ≠ baseNoExt bad) :
    Event.warned bad ∈ (generateIndex env cfg).events ∧
    (∀ f ∈ scanFilter cfg (pre ++ bad :: post),
      Event.processed f ∈ (generateIndex env cfg).events) ∧
    (generateIndex env cfg).rendered =
      (generateIndex { env with readdirResult := .ok (pre ++ post) } cfg).rendered ∧
    (generateIndex env cfg).emitted =
      (generateIndex { env with readdirResult := .ok (pre ++ post) } cfg).emitted := by
  have hbadpass : (cfg.includePat bad &&
      !(cfg.exclude.any fun pattern => pattern bad)) = true := by
    simp [hinc, hexc]
  have hsfA : scanFilter cfg (pre ++ bad :: post) =
      scanFilter cfg pre ++ bad :: scanFilter cfg post := by
    unfold scanFilter
    rw [List.filter_append, List.filter_cons]
    simp only [hbadpass, if_true]
  have hsfB : scanFilter cfg (pre ++ post) =
      scanFilter cfg pre ++ scanFilter cfg post := by
    unfold scanFilter
    rw [List.filter_append]
  refine ⟨?_, ?_, ?_⟩
  · rw [events_eq_main env cfg (pre ++ bad :: post) hstat hls]
    apply List.mem_append_left
    rw [hsfA]
    refine warned_mem_fileTrace _ _ _ bad e ?_ hfail
    exact List.mem_append_right _ (List.mem_cons_self _ _)
  · intro f hf
    rw [events_eq_main env cfg (pre ++ bad :: post) hstat hls]
    exact List.mem_append_left _ (processed_mem_fileTrace _ _ _ f hf)
  · have hstA : mainState env cfg (pre ++ bad :: post) =
        (scanFilter cfg post).foldl
          (processOneFile cfg env.readAndParse (resolvedComponentsDir env cfg))
          (processOneFile cfg env.readAndParse (resolvedComponentsDir env cfg)
            ((scanFilter cfg pre).foldl
              (processOneFile cfg env.readAndParse (resolvedComponentsDir env cfg))
              initLoopState)
            bad) := by
      unfold mainState runFiles
      rw [hsfA, List.foldl_append, List.foldl_cons]
    have hstB : mainState { env with readdirResult := .ok (pre ++ post) } cfg
        (pre ++ post) =
        (scanFilter cfg post).foldl
          (processOneFile cfg env.readAndParse (resolvedComponentsDir env cfg))
          ((scanFilter cfg pre).foldl
            (processOneFile cfg env.readAndParse (resolvedComponentsDir env cfg))
            initLoopState) := by
      unfold mainState runFiles
      rw [hsfB, List.foldl_append]
      rfl
    have hbadstep : (processOneFile cfg env.readAndParse (resolvedComponentsDir env cfg)
        ((scanFilter cfg pre).foldl
          (processOneFile cfg env.readAndParse (resolvedComponentsDir env cfg))
          initLoopState) bad).componentExports =
        ((scanFilter cfg pre).foldl
          (processOneFile cfg env.readAndParse (resolvedComponentsDir env cfg))
          initLoopState).componentExports := by
      simp [processOneFile, hfail]
    have hbadext : ∀ j, j ≠ baseNoExt bad →
        mapGet (processOneFile cfg env.readAndParse (resolvedComponentsDir env cfg)
          ((scanFilter cfg pre).foldl
            (processOneFile cfg env.readAndParse (resolvedComponentsDir env cfg))
            initLoopState) bad).fileExtensions j =
        mapGet ((scanFilter cfg pre).foldl
          (processOneFile cfg env.readAndParse (resolvedComponentsDir env cfg))
          initLoopState).fileExtensions j := by
      intro j hj
      simp [processOneFile, hfail, mapGet_mapSet, hj]
    obtain ⟨hexp, hext⟩ := foldl_rel cfg env.readAndParse (resolvedComponentsDir env cfg)
      (baseNoExt bad) (scanFilter cfg post) _ _ hbadstep hbadext
    have hsplit : ((scanFilter cfg pre ++ scanFilter cfg post).foldl
        (processOneFile cfg env.readAndParse (resolvedComponentsDir env cfg))
        initLoopState) =
        (scanFilter cfg post).foldl
          (processOneFile cfg env.readAndParse (resolvedComponentsDir env cfg))
          ((scanFilter cfg pre).foldl
            (processOneFile cfg env.readAndParse (resolvedComponentsDir env cfg))
            initLoopState) :=
      List.foldl_append _ _ _ _
    have havoid : ∀ key ∈ ((scanFilter cfg post).foldl
        (processOneFile cfg env.readAndParse (resolvedComponentsDir env cfg))
        ((scanFilter cfg pre).foldl
          (processOneFile cfg env.readAndParse (resolvedComponentsDir env cfg))
          initLoopState)).componentExports.map Prod.fst, key ≠ baseNoExt bad := by
      intro key hkey
      rw [← hsplit] at hkey
      obtain ⟨extra, hkeys, hsub⟩ := keys_foldl_sublist cfg env.readAndParse
        (resolvedComponentsDir env cfg) (scanFilter cfg pre ++ scanFilter cfg post)
        initLoopState
      rw [hkeys] at hkey
      simp only [initLoopState, List.map_nil, List.nil_append] at hkey
      have hmem := hsub.subset hkey
      obtain ⟨f, hfmem, hfeq⟩ := List.mem_map.mp hmem
      rw [← hfeq]
      refine hdisj f ?_
      rcases List.mem_append.mp hfmem with h | h
      · exact List.mem_append_left _ ((List.filter_sublist pre).subset h)
      · exact List.mem_append_right _ ((List.filter_sublist post).subset h)
    have hemit : mainEmitted env cfg (pre ++ bad :: post) =
        mainEmitted { env with readdirResult := .ok (pre ++ post) } cfg (pre ++ post) := by
      show emittedRecords cfg (cfg.forceExplicitExtensions || env.esmDetected)
          (mainState env cfg (pre ++ bad :: post)) =
        emittedRecords cfg (cfg.forceExplicitExtensions || env.esmDetected)
          (mainState { env with readdirResult := .ok (pre ++ post) } cfg (pre ++ post))
      rw [hstA, hstB]
      refine emittedRecords_congr cfg _ _ _ hexp ?_
      intro j hj
      rw [hexp] at hj
      exact hext j (havoid j hj)
    refine ⟨?_, ?_⟩
    · rw [rendered_eq env cfg (pre ++ bad :: post) hstat hls,
        rendered_eq { env with readdirResult := .ok (pre ++ post) } cfg (pre ++ post)
          hstat rfl]
      show some (renderedIndex cfg (mainEmitted env cfg (pre ++ bad :: post))) = _
      rw [hemit]
      rfl
    · rw [emitted_eq env cfg (pre ++ bad :: post) hstat hls,
        emitted_eq { env with readdirResult := .ok (pre ++ post) } cfg (pre ++ post)
          hstat rfl]
      rw [hemit]

theorem failed_file_skipped_witness :
    Event.warned "button.ts" ∈ (generateIndex envSkip cfgBase).events ∧
    (generateIndex envSkip cfgBase).rendered =
      (generateIndex { envSkip with readdirResult := .ok (["card.ts"] ++ ["alert.ts"]) }
        cfgBase).rendered := by
  refine ⟨?_, ?_⟩
  · exact (failed_file_skipped_and_output_preserved envSkip cfgBase ["card.ts"] ["alert.ts"]
      "button.ts" ⟨none, "unreadable"⟩ rfl rfl (by decide) (by decide) rfl
      (by decide)).1
  · exact (failed_file_skipped_and_output_preserved envSkip cfgBase ["card.ts"] ["alert.ts"]
      "button.ts" ⟨none, "unreadable"⟩ rfl rfl (by decide) (by decide) rfl
      (by decide)).2.2.1

/-- C3 counterexample: the failing file still records its extension (the
`fileExtensions.set` at source line 361 runs before the try block), so under
`--force-extensions` the aggregate output differs from the output of the
successfully processed files alone when a failed file shares a base name with
a successful one. -/
theorem failed_file_extension_leak_cx :
    (generateIndex envLeak cfgForceExt).rendered =
      some ("// ui\n" ++ "export \x7b A \x7d from \"./button.tsx\";\n") ∧
    (generateIndex envLeakSuccessOnly cfgForceExt).rendered =
      some ("// ui\n" ++ "export \x7b A \x7d from \"./button.ts\";\n") ∧
    (generateIndex envLeak cfgForceExt).rendered ≠
      (generateIndex envLeakSuccessOnly cfgForceExt).rendered :=
  ⟨by decide, by decide, by decide⟩

end ShadcnIndexGen

